import Mathlib

/-!
Verification of the provider-pool / credit-ledger subsystem of the AnsBSA
repository against its specification.

The definitions below are a shallow embedding of the TypeScript sources:

* `src/server/services/credit-manager.ts` (credit ledger),
* `src/server/services/gemini-manager.ts` (provider pool, rate limiter,
  health tracker),
* the response cache module (`generateQueryHash`, `getCachedResponse`,
  `setCachedResponse`),
* `src/shared/schema.ts` (`CREDIT_COSTS`).

Database reads/writes and in-memory `Map`s become explicit state values
threaded through pure functions; `Date` timestamps become `Nat`
milliseconds; `setTimeout` callbacks become explicit timer values that a
`fireTimer` function applies at their scheduled instant.
-/

namespace AnsBSA

/-! ## Credit ledger (`src/server/services/credit-manager.ts`) -/

/-- Feature categories, the keys of `CREDIT_COSTS` in `src/shared/schema.ts`
(also the keys of `QUOTA_RATES` in `gemini-manager.ts`). -/
inductive CreditType
  | chat
  | imageGeneration
  | videoAnalysis
  | webScraping
  | deepSearch
  | learning
deriving DecidableEq, Repr

/-- `CREDIT_COSTS` from `src/shared/schema.ts`. -/
def CREDIT_COSTS : CreditType → Int
  | .chat => 100
  | .imageGeneration => 200
  | .videoAnalysis => 300
  | .webScraping => 150
  | .deepSearch => 200
  | .learning => 100

/-- The string name of a credit type, as used in the `type` column of a
`creditTransactions` row. -/
def creditTypeName : CreditType → String
  | .chat => "chat"
  | .imageGeneration => "imageGeneration"
  | .videoAnalysis => "videoAnalysis"
  | .webScraping => "webScraping"
  | .deepSearch => "deepSearch"
  | .learning => "learning"

/-- JavaScript `v || d` on numbers: `0` (and `undefined`, here `none`) is
falsy and yields the default. -/
def jsOrInt (v : Option Int) (d : Int) : Int :=
  match v with
  | none => d
  | some x => if x = 0 then d else x

/-- Outcome of the `db.select` in `getUserCredits`: the query can throw
(caught by the surrounding `try`), return no row, or return the row's
`credits` column. -/
inductive UserLookup
  | dbError
  | notFound
  | found (credits : Int)
deriving DecidableEq, Repr

/-- `CreditManager.getUserCredits`: `user?.credits || 0`, and `0` from the
`catch` branch. -/
def getUserCredits : UserLookup → Int
  | .dbError => 0
  | .notFound => 0
  | .found c => jsOrInt (some c) 0

/-- Result record of `CreditManager.canAfford`. -/
structure AffordCheck where
  canAfford : Bool
  currentCredits : Int
  required : Int
deriving DecidableEq, Repr

/-- `CreditManager.canAfford`. -/
def canAfford (r : UserLookup) (t : CreditType) : AffordCheck :=
  let currentCredits := getUserCredits r
  let required := CREDIT_COSTS t
  { canAfford := decide (required ≤ currentCredits)
    currentCredits := currentCredits
    required := required }

/-- One `creditTransactions` row (the fields the ledger invariants are
about). -/
structure CreditTxn where
  ttype : String
  amount : Int
  balanceAfter : Int
deriving DecidableEq, Repr

/-- The durable per-user ledger state: the `users.credits` column plus the
user's `creditTransactions` rows in creation order. -/
structure LedgerState where
  balance : Int
  log : List CreditTxn
deriving DecidableEq, Repr

/-- `CreditManager.deductCredits` (success path, single caller):
`amount = customAmount || CREDIT_COSTS[creditType]`; reject when
`currentCredits < amount`, otherwise write `currentCredits - amount` and
append a transaction of amount `-amount`. -/
def deductCredits (s : LedgerState) (t : CreditType) (customAmount : Option Int) :
    Bool × LedgerState :=
  let amount := jsOrInt customAmount (CREDIT_COSTS t)
  if s.balance < amount then
    (false, s)
  else
    let newBalance := s.balance - amount
    (true, ⟨newBalance, s.log ++ [⟨creditTypeName t, -amount, newBalance⟩]⟩)

/-- `CreditManager.addCredits`: unconditional addition logged as
`admin_adjustment`. -/
def addCredits (s : LedgerState) (amount : Int) : LedgerState :=
  let newBalance := s.balance + amount
  ⟨newBalance, s.log ++ [⟨"admin_adjustment", amount, newBalance⟩]⟩

/-- `CreditManager.setCredits`: absolute set logged as `admin_adjustment`
with the signed delta from the prior balance. -/
def setCredits (s : LedgerState) (newAmount : Int) : LedgerState :=
  let difference := newAmount - s.balance
  ⟨newAmount, s.log ++ [⟨"admin_adjustment", difference, newAmount⟩]⟩

/-- One ledger operation, as invoked by the routes and feature code. -/
inductive LedgerOp
  | debit (t : CreditType) (customAmount : Option Int)
  | credit (amount : Int)
  | setBalance (newAmount : Int)
deriving DecidableEq, Repr

/-- Apply one ledger operation (a failed debit leaves the state
unchanged). -/
def applyOp (s : LedgerState) : LedgerOp → LedgerState
  | .debit t c => (deductCredits s t c).2
  | .credit a => addCredits s a
  | .setBalance a => setCredits s a

/-- Run a sequence of ledger operations. -/
def runLedger (s : LedgerState) : List LedgerOp → LedgerState
  | [] => s
  | op :: ops => runLedger (applyOp s op) ops

/-- All intermediate states produced by a sequence of ledger operations
(the state after each operation, in order). -/
def runStates (s : LedgerState) : List LedgerOp → List LedgerState
  | [] => []
  | op :: ops => applyOp s op :: runStates (applyOp s op) ops

/-- Sum of the `amount` column over a transaction log. -/
def logSum (l : List CreditTxn) : Int :=
  (l.map (·.amount)).sum

/-- An operation whose requested amount is non-negative (debits are
unrestricted: the sufficiency check protects them). -/
def opNonneg : LedgerOp → Prop
  | .debit _ _ => True
  | .credit a => 0 ≤ a
  | .setBalance a => 0 ≤ a

instance : DecidablePred opNonneg := fun op => by
  cases op <;> simp [opNonneg] <;> infer_instance

/-! ### Interleaving model of concurrent `deductCredits` calls

`deductCredits` performs three separately awaited database operations:
the balance `select`, the balance `update`, and the transaction `insert`.
Each of those is atomic on its own, but nothing serializes the whole
call.  A thread is one in-flight `deductCredits(userId, type, amount)`;
its phase records which awaits have resolved.  A schedule is the order in
which the threads' next atomic database operations run. -/

/-- Progress of one in-flight `deductCredits` call. -/
inductive DebitPhase
  | ready
  | readDone (readVal : Int)
  | written (readVal : Int)
  | done (success : Bool)
deriving DecidableEq, Repr

/-- One in-flight `deductCredits` call against a fixed account. -/
structure DebitThread where
  dtype : CreditType
  amount : Int
  phase : DebitPhase
deriving DecidableEq, Repr

/-- Shared account state plus the in-flight debit calls. -/
structure ConcState where
  balance : Int
  log : List CreditTxn
  threads : List DebitThread
deriving DecidableEq, Repr

/-- Run the next atomic database operation of thread `i`:
`ready` performs the balance read; `readDone v` performs the sufficiency
check on the read value `v` and, if sufficient, writes the absolute value
`v - amount`; `written v` appends the transaction row. -/
def stepThread (st : ConcState) (i : Nat) : ConcState :=
  match st.threads.get? i with
  | none => st
  | some th =>
    match th.phase with
    | .ready =>
        { st with threads := st.threads.set i { th with phase := .readDone st.balance } }
    | .readDone v =>
        if v < th.amount then
          { st with threads := st.threads.set i { th with phase := .done false } }
        else
          { st with
            balance := v - th.amount
            threads := st.threads.set i { th with phase := .written v } }
    | .written v =>
        { st with
          log := st.log ++ [⟨creditTypeName th.dtype, -th.amount, v - th.amount⟩]
          threads := st.threads.set i { th with phase := .done true } }
    | .done _ => st

/-- Run a schedule (a sequence of thread indices). -/
def runSched (st : ConcState) : List Nat → ConcState
  | [] => st
  | i :: rest => runSched (stepThread st i) rest

/-- Number of threads that finished successfully. -/
def successCount (st : ConcState) : Nat :=
  (st.threads.filter (fun th => th.phase = DebitPhase.done true)).length

/-- Two concurrent debits of 700 against a fresh balance of 1000. -/
def twoDebits : ConcState :=
  ⟨1000, [], [⟨CreditType.chat, 700, .ready⟩, ⟨CreditType.chat, 700, .ready⟩]⟩

/-- The schedule in which both reads resolve before either write. -/
def racySched : List Nat := [0, 1, 0, 0, 1, 1]

/-! ## Provider pool (`src/server/services/gemini-manager.ts`)

`this.apis : Map<string, GeminiAPIConfig>` becomes a list of configs in
insertion order with unique ids (a `Map` holds at most one entry per
key); `this.rateLimitTracker` becomes an association list keyed by api
id.  `this.clients` is not modelled: client construction is assumed to
succeed, so every stored config has a clients entry (when it throws, the
source marks the config `failed`, which `getBestAPI` filters out
anyway).  `setTimeout(cb, d)` at time `now` becomes a `ResetTimer` value
with `fireAt = now + d`; `fireTimer` applies the callback's body. -/

/-- Credential health status. -/
inductive APIStatus
  | active
  | failed
  | quota_exceeded
  | disabled
deriving DecidableEq, Repr

/-- The `quotaUsage` sub-record of `GeminiAPIConfig`. -/
structure QuotaUsage where
  requests : Nat
  tokens : Nat
  images : Nat
  videos : Nat
  resetTime : Nat
deriving DecidableEq, Repr

/-- `GeminiAPIConfig`. -/
structure GeminiAPIConfig where
  id : String
  key : String
  priority : Int
  name : String
  status : APIStatus
  lastUsed : Option Nat
  requestCount : Nat
  failureCount : Nat
  lastError : Option String
  maxRequestsPerMinute : Option Nat
  quotaUsage : QuotaUsage
deriving DecidableEq, Repr

/-- One `QUOTA_RATES` row: request/token weights plus optional image and
video weights (0 where the source omits the field, so the unconditional
addition below matches the source's `if ('images' in rate)` guard). -/
structure QuotaRate where
  requests : Nat
  tokens : Nat
  images : Nat
  videos : Nat
deriving DecidableEq, Repr

/-- `QUOTA_RATES` from `gemini-manager.ts` (the `priority` reporting class
is omitted: no modelled code reads it). -/
def QUOTA_RATES : CreditType → QuotaRate
  | .chat => ⟨1, 100, 0, 0⟩
  | .imageGeneration => ⟨1, 200, 1, 0⟩
  | .videoAnalysis => ⟨1, 300, 0, 1⟩
  | .webScraping => ⟨1, 150, 0, 0⟩
  | .deepSearch => ⟨1, 200, 0, 0⟩
  | .learning => ⟨1, 100, 0, 0⟩

/-- `Map.get` on the registry (first entry with the id; ids are unique in
states reachable through `Map.set`). -/
def apisFind : List GeminiAPIConfig → String → Option GeminiAPIConfig
  | [], _ => none
  | a :: rest, i => if a.id = i then some a else apisFind rest i

/-- `Map.set` on the registry: replace in place, else append. -/
def apisSet : List GeminiAPIConfig → GeminiAPIConfig → List GeminiAPIConfig
  | [], c => [c]
  | a :: rest, c => if a.id = c.id then c :: rest else a :: apisSet rest c

/-- Does some stored credential hold this secret
(`Array.from(this.apis.values()).find(api => api.key === config.key)`)? -/
def keyExists : List GeminiAPIConfig → String → Bool
  | [], _ => false
  | a :: rest, k => if a.key = k then true else keyExists rest k

/-- `GeminiAPIManager.addAPI`: a duplicate secret is a no-op, otherwise
`Map.set` (client construction modelled as always succeeding). -/
def addAPI (apis : List GeminiAPIConfig) (config : GeminiAPIConfig) :
    List GeminiAPIConfig :=
  if keyExists apis config.key then apis else apisSet apis config

/-- JavaScript `customName || default` on strings: `undefined` and the
empty string are falsy. -/
def jsOrStr (v : Option String) (d : String) : String :=
  match v with
  | none => d
  | some s => if s = "" then d else s

/-- `String.prototype.startsWith`. -/
def strStartsWith (s pre : String) : Bool :=
  pre.data.isPrefixOf s.data

/-- `GeminiAPIManager.addAPIAtRuntime`: reject keys that do not start
with `"AIza"`, otherwise build a fresh active config with priority
`apis.size + 1` and delegate to `addAPI`; returns `true` whenever the key
format was accepted, regardless of whether `addAPI` stored anything. -/
def addAPIAtRuntime (apis : List GeminiAPIConfig) (keyName apiKey : String)
    (customName : Option String) (now : Nat) : Bool × List GeminiAPIConfig :=
  if strStartsWith apiKey "AIza" then
    let config : GeminiAPIConfig :=
      { id := "runtime_" ++ keyName
        key := apiKey
        priority := (apis.length : Int) + 1
        name := jsOrStr customName ("Gemini API (" ++ keyName ++ ")")
        status := .active
        lastUsed := none
        requestCount := 0
        failureCount := 0
        lastError := none
        maxRequestsPerMinute := some 60
        quotaUsage := ⟨0, 0, 0, 0, now⟩ }
    (true, addAPI apis config)
  else
    (false, apis)

/-- One registration request arriving at the runtime admin route. -/
structure RegCall where
  keyName : String
  apiKey : String
  customName : Option String
  time : Nat

/-- Run a sequence of runtime registrations. -/
def runRegs (apis : List GeminiAPIConfig) : List RegCall → List GeminiAPIConfig
  | [] => apis
  | c :: rest => runRegs (addAPIAtRuntime apis c.keyName c.apiKey c.customName c.time).2 rest

/-- The stored secrets are pairwise distinct (one registry entry per
distinct secret). -/
def keysDistinct (apis : List GeminiAPIConfig) : Prop :=
  (apis.map (·.key)).Nodup

instance : DecidablePred keysDistinct := fun apis => by
  unfold keysDistinct; infer_instance

/-- One rolling-window rate-limit counter. -/
structure Tracker where
  requests : Nat
  resetTime : Nat
deriving DecidableEq, Repr

/-- The `rateLimitTracker` map. -/
abbrev Trackers := List (String × Tracker)

/-- Lookup in the tracker map. -/
def trackerFind : Trackers → String → Option Tracker
  | [], _ => none
  | (j, w) :: rest, i => if j = i then some w else trackerFind rest i

/-- `Map.set` on the tracker map. -/
def trackerSet : Trackers → String → Tracker → Trackers
  | [], i, v => [(i, v)]
  | (j, w) :: rest, i, v =>
    if j = i then (i, v) :: rest else (j, w) :: trackerSet rest i v

/-- JavaScript `v || d` on naturals (`api?.maxRequestsPerMinute || 60`):
`0` and `undefined` are falsy. -/
def jsOrNat (v : Option Nat) (d : Nat) : Nat :=
  match v with
  | none => d
  | some x => if x = 0 then d else x

/-- `GeminiAPIManager.isRateLimited`: no tracker means unlimited; a
tracker past its reset time is atomically reset (count 0, reset one
minute from now) and reports unlimited; otherwise the count is compared
against the credential's ceiling, with 60 as the fallback. -/
def isRateLimited (apis : List GeminiAPIConfig) (trackers : Trackers)
    (apiId : String) (now : Nat) : Bool × Trackers :=
  match trackerFind trackers apiId with
  | none => (false, trackers)
  | some tracker =>
    if tracker.resetTime < now then
      (false, trackerSet trackers apiId ⟨0, now + 60 * 1000⟩)
    else
      let mx :=
        match apisFind apis apiId with
        | some api => jsOrNat api.maxRequestsPerMinute 60
        | none => 60
      (decide (mx ≤ tracker.requests), trackers)

/-- Per-config usage bump performed by `trackUsage`. -/
def bumpUsage (feature : CreditType) (now : Nat) (a : GeminiAPIConfig) :
    GeminiAPIConfig :=
  let rate := QUOTA_RATES feature
  { a with
    requestCount := a.requestCount + 1
    lastUsed := some now
    quotaUsage :=
      { a.quotaUsage with
        requests := a.quotaUsage.requests + rate.requests
        tokens := a.quotaUsage.tokens + rate.tokens
        images := a.quotaUsage.images + rate.images
        videos := a.quotaUsage.videos + rate.videos } }

/-- Pool state: the registry plus the rate-limit trackers. -/
structure PoolState where
  apis : List GeminiAPIConfig
  trackers : Trackers
deriving DecidableEq, Repr

/-- `GeminiAPIManager.trackUsage`: bump the config's counters in place
and increment the current rolling window (starting a fresh one if absent
or expired). -/
def trackUsage (s : PoolState) (apiId : String) (feature : CreditType)
    (now : Nat) : PoolState :=
  match apisFind s.apis apiId with
  | none => s
  | some _ =>
    let apis' := s.apis.map (fun a => if a.id = apiId then bumpUsage feature now a else a)
    let tracker :=
      match trackerFind s.trackers apiId with
      | some tracker => if tracker.resetTime < now then Tracker.mk 0 (now + 60 * 1000) else tracker
      | none => Tracker.mk 0 (now + 60 * 1000)
    ⟨apis', trackerSet s.trackers apiId ⟨tracker.requests + 1, tracker.resetTime⟩⟩

/-- Run `trackUsage` once per listed call time. -/
def trackUses (s : PoolState) (apiId : String) (feature : CreditType) :
    List Nat → PoolState
  | [] => s
  | t :: ts => trackUses (trackUsage s apiId feature t) apiId feature ts

/-- The `filter` pass of `getBestAPI`, threading the tracker map through
the side-effecting `isRateLimited` calls exactly as the filter callback
does (`isRateLimited` is only invoked for configs whose status check
already passed, matching `&&` short-circuiting). -/
def filterEligibleAux (apis : List GeminiAPIConfig) (now : Nat) :
    List GeminiAPIConfig → Trackers → List GeminiAPIConfig × Trackers
  | [], trackers => ([], trackers)
  | a :: rest, trackers =>
    if a.status = APIStatus.active then
      if (isRateLimited apis trackers a.id now).1 then
        filterEligibleAux apis now rest (isRateLimited apis trackers a.id now).2
      else
        (a :: (filterEligibleAux apis now rest (isRateLimited apis trackers a.id now).2).1,
         (filterEligibleAux apis now rest (isRateLimited apis trackers a.id now).2).2)
    else
      filterEligibleAux apis now rest trackers

/-- The filtered snapshot of `getBestAPI`, in registry order. -/
def filterEligible (s : PoolState) (now : Nat) : List GeminiAPIConfig × Trackers :=
  filterEligibleAux s.apis now s.apis s.trackers

/-- Stable insertion into a priority-ascending list: the new element goes
before every element of equal or larger priority (elements already in the
list come later in the original order). -/
def insertByPriority (a : GeminiAPIConfig) :
    List GeminiAPIConfig → List GeminiAPIConfig
  | [] => [a]
  | b :: l => if b.priority < a.priority then b :: insertByPriority a l else a :: b :: l

/-- The `.sort((a, b) => a.priority - b.priority)` call: a stable
ascending sort by priority (JavaScript `Array.prototype.sort` is
stable). -/
def sortByPriority : List GeminiAPIConfig → List GeminiAPIConfig
  | [] => []
  | a :: l => insertByPriority a (sortByPriority l)

/-- The earliest element of minimal priority, which is what a stable
ascending sort puts first. -/
def firstMinP : List GeminiAPIConfig → Option GeminiAPIConfig
  | [] => none
  | a :: l =>
    match firstMinP l with
    | none => some a
    | some m => some (if m.priority < a.priority then m else a)

/-- `GeminiAPIManager.getBestAPI`: filter to active and not rate-limited,
stable-sort by ascending priority, take the first (every stored config
has a clients entry in this model), track its usage; `none` when nothing
is eligible.  The returned config is the pre-bump snapshot. -/
def getBestAPI (s : PoolState) (feature : CreditType) (now : Nat) :
    Option GeminiAPIConfig × PoolState :=
  match (sortByPriority (filterEligible s now).1).head? with
  | none => (none, ⟨s.apis, (filterEligible s now).2⟩)
  | some api => (some api, trackUsage ⟨s.apis, (filterEligible s now).2⟩ api.id feature now)

/-- Contiguous-substring test (JavaScript `String.prototype.includes`). -/
def containsSub (pat : List Char) : List Char → Bool
  | [] => pat.isEmpty
  | c :: rest => pat.isPrefixOf (c :: rest) || containsSub pat rest

/-- The quota/overload classifier of `handleAPIFailure`: the error text
contains `"quota"`, `"overloaded"`, `"rate limit"`, or `"503"`. -/
def isQuotaError (msg : String) : Bool :=
  containsSub "quota".data msg.data || containsSub "overloaded".data msg.data ||
    containsSub "rate limit".data msg.data || containsSub "503".data msg.data

/-- A pending `setTimeout` reactivation: which credential, when it fires,
and which status the callback's guard expects to still be present. -/
structure ResetTimer where
  apiId : String
  fireAt : Nat
  expect : APIStatus
deriving DecidableEq, Repr

/-- `GeminiAPIManager.handleAPIFailure`: bump the failure count, record
the error, classify it; a quota-indicating error sets `quota_exceeded`
and schedules reactivation one hour out, anything else sets `failed` and
schedules reactivation five minutes out.  Unknown ids are ignored. -/
def handleAPIFailure (apis : List GeminiAPIConfig) (apiId errMsg : String)
    (now : Nat) : List GeminiAPIConfig × Option ResetTimer :=
  match apisFind apis apiId with
  | none => (apis, none)
  | some _ =>
    if isQuotaError errMsg then
      (apis.map (fun a =>
        if a.id = apiId then
          { a with
            failureCount := a.failureCount + 1
            lastError := some errMsg
            status := .quota_exceeded }
        else a),
       some ⟨apiId, now + 60 * 60 * 1000, .quota_exceeded⟩)
    else
      (apis.map (fun a =>
        if a.id = apiId then
          { a with
            failureCount := a.failureCount + 1
            lastError := some errMsg
            status := .failed }
        else a),
       some ⟨apiId, now + 5 * 60 * 1000, .failed⟩)

/-- Fire a scheduled reactivation: the callback closes over the config
and only acts if the status still equals the one the scheduling branch
set; the quota branch also zeroes the failure count, the transient branch
does not. -/
def fireTimer (apis : List GeminiAPIConfig) (tm : ResetTimer) :
    List GeminiAPIConfig :=
  apis.map (fun a =>
    if a.id = tm.apiId then
      if a.status = tm.expect then
        if tm.expect = APIStatus.quota_exceeded then
          { a with status := .active, failureCount := 0 }
        else
          { a with status := .active }
      else a
    else a)

/-- Run a sequence of `getBestAPI` calls (feature and current time per
call), collecting each returned credential. -/
def acquireRun (s : PoolState) :
    List (CreditType × Nat) → List (Option GeminiAPIConfig) × PoolState
  | [] => ([], s)
  | (f, t) :: evs =>
    ((getBestAPI s f t).1 :: (acquireRun (getBestAPI s f t).2 evs).1,
     (acquireRun (getBestAPI s f t).2 evs).2)

/-- No registry entry with this id is active (the quarantine invariant
maintained between a failure and its reactivation timer). -/
def NotActive (apis : List GeminiAPIConfig) (apiId : String) : Prop :=
  ∀ a ∈ apis, a.id = apiId → a.status ≠ APIStatus.active

/-! ### Concrete fixtures used by witnesses and counterexamples -/

/-- A healthy credential as `loadAPIConfigurations` builds it. -/
def cfgA : GeminiAPIConfig :=
  ⟨"primary", "AIzaA", 1, "Gemini Primary API", .active, none, 0, 0, none,
    some 60, ⟨0, 0, 0, 0, 0⟩⟩

/-- A credential currently in the `failed` state with three recorded
consecutive failures. -/
def cfgF : GeminiAPIConfig :=
  ⟨"primary", "AIzaF", 1, "Gemini Primary API", .failed, none, 0, 3,
    some "network error", some 60, ⟨0, 0, 0, 0, 0⟩⟩

/-- A credential currently in the `quota_exceeded` state with three
recorded consecutive failures. -/
def cfgQ : GeminiAPIConfig :=
  ⟨"primary", "AIzaQ", 1, "Gemini Primary API", .quota_exceeded, none, 0, 3,
    some "quota exceeded", some 60, ⟨0, 0, 0, 0, 0⟩⟩

/-- A manually disabled credential. -/
def cfgD : GeminiAPIConfig :=
  ⟨"primary", "AIzaD", 1, "Gemini Primary API", .disabled, none, 0, 0, none,
    some 60, ⟨0, 0, 0, 0, 0⟩⟩

/-- A credential with a rolling-window ceiling of two requests per
minute. -/
def cfgR : GeminiAPIConfig :=
  ⟨"primary", "AIzaR", 1, "Gemini Primary API", .active, none, 0, 0, none,
    some 2, ⟨0, 0, 0, 0, 0⟩⟩

/-- The five-minute reactivation timer for `cfgF`. -/
def tmF : ResetTimer := ⟨"primary", 5 * 60 * 1000, .failed⟩

/-- The one-hour reactivation timer for `cfgQ`. -/
def tmQ : ResetTimer := ⟨"primary", 60 * 60 * 1000, .quota_exceeded⟩

/-- A secret registered twice through the runtime route. -/
def dupKey : String := "AIzaDup"

/-- The registry after the first runtime registration of `dupKey`. -/
def regOnce : List GeminiAPIConfig := (addAPIAtRuntime [] "k1" dupKey none 0).2

/-! ## Response cache (quota-optimization module)

JavaScript regular-expression classes are modelled on the characters the
repository's code paths exercise: `\w` is exactly `[A-Za-z0-9_]` (the
source uses no `u` flag, so letters outside ASCII are *not* word
characters and are stripped), `\s` by the common whitespace code points,
and `toLowerCase` by the Unicode simple lowercase mapping on the Basic
Latin, Latin-1 Supplement, and Latin Extended Additional blocks (the
blocks Vietnamese text uses). -/

/-- JavaScript `toLowerCase`, restricted to the blocks named above. -/
def jsToLower (c : Char) : Char :=
  if 'A' ≤ c ∧ c ≤ 'Z' then Char.ofNat (c.toNat + 32)
  else if (0xC0 ≤ c.toNat ∧ c.toNat ≤ 0xDE) ∧ c.toNat ≠ 0xD7 then Char.ofNat (c.toNat + 32)
  else if (0x1E00 ≤ c.toNat ∧ c.toNat ≤ 0x1EFF) ∧ c.toNat % 2 = 0 then Char.ofNat (c.toNat + 1)
  else c

/-- Whitespace for `trim` and `\s`. -/
def isJsSpace (c : Char) : Bool :=
  c = ' ' || c = '\t' || c = '\n' || c = '\r' || c.toNat = 11 || c.toNat = 12 ||
    c.toNat = 0xA0 || c.toNat = 0xFEFF

/-- `\w` without the `u` flag: ASCII letters, digits, underscore. -/
def isWordChar (c : Char) : Bool :=
  ('a' ≤ c && c ≤ 'z') || ('A' ≤ c && c ≤ 'Z') || ('0' ≤ c && c ≤ '9') || c = '_'

/-- `String.prototype.trim`. -/
def trimChars (l : List Char) : List Char :=
  ((l.dropWhile isJsSpace).reverse.dropWhile isJsSpace).reverse

/-- Worker for `replace(/\s+/g, ' ')`: the flag records whether we are
inside a whitespace run already replaced by one space. -/
def collapseGo : List Char → Bool → List Char
  | [], _ => []
  | c :: cs, inRun =>
    if isJsSpace c then
      if inRun then collapseGo cs true else ' ' :: collapseGo cs true
    else c :: collapseGo cs false

/-- `replace(/\s+/g, ' ')`. -/
def collapseWs (l : List Char) : List Char := collapseGo l false

/-- The normalization pipeline of `generateQueryHash`: lowercase, trim,
collapse whitespace runs, strip every character that is neither a word
character nor whitespace. -/
def normalizeQuery (q : String) : String :=
  String.mk ((collapseWs (trimChars (q.data.map jsToLower))).filter
    (fun c => isWordChar c || isJsSpace c))

/-- JavaScript `ToInt32` (the effect of `x & x` and of `<<` on a 32-bit
quantity). -/
def toInt32 (n : Int) : Int := (n + 2 ^ 31) % 2 ^ 32 - 2 ^ 31

/-- One iteration of the hash loop:
`hash = ((hash << 5) - hash) + charCode; hash = hash & hash`. -/
def hashStep (h : Int) (c : Char) : Int :=
  toInt32 (toInt32 (h * 32) - h + (c.toNat : Int))

/-- `generateQueryHash`: normalize, fold the 32-bit hash over the
characters, render in decimal. -/
def generateQueryHash (q : String) : String :=
  toString ((normalizeQuery q).data.foldl hashStep 0)

/-- One cached entry. -/
structure CachedResponse where
  content : String
  timestamp : Nat
  expiryTime : Nat
  queryHash : String
deriving DecidableEq, Repr

/-- The `responseCache` map in insertion order. -/
abbrev ResponseCache := List (String × CachedResponse)

/-- Lookup in the cache map. -/
def cacheFind : ResponseCache → String → Option CachedResponse
  | [], _ => none
  | (j, w) :: rest, i => if j = i then some w else cacheFind rest i

/-- `Map.set` on the cache map. -/
def cacheSet : ResponseCache → String → CachedResponse → ResponseCache
  | [], i, v => [(i, v)]
  | (j, w) :: rest, i, v =>
    if j = i then (i, v) :: rest else (j, w) :: cacheSet rest i v

/-- `Map.delete` on the cache map. -/
def cacheDelete : ResponseCache → String → ResponseCache
  | [], _ => []
  | (j, w) :: rest, i => if j = i then rest else (j, w) :: cacheDelete rest i

/-- `CACHE_DURATION`: 30 minutes. -/
def CACHE_DURATION : Nat := 30 * 60 * 1000

/-- `getCachedResponse`: serve an unexpired entry under the derived key;
delete an expired one and miss. -/
def getCachedResponse (cache : ResponseCache) (q ctype : String) (now : Nat) :
    Option String × ResponseCache :=
  match cacheFind cache (ctype ++ "_" ++ generateQueryHash q) with
  | some cached =>
    if now < cached.expiryTime then (some cached.content, cache)
    else (none, cacheDelete cache (ctype ++ "_" ++ generateQueryHash q))
  | none => (none, cache)

/-- `setCachedResponse`: store under the derived key with a 30-minute
expiry, then evict the oldest entry if the map now exceeds 100
entries. -/
def setCachedResponse (cache : ResponseCache) (q response ctype : String)
    (now : Nat) : ResponseCache :=
  let c' := cacheSet cache (ctype ++ "_" ++ generateQueryHash q)
    ⟨response, now, now + CACHE_DURATION, generateQueryHash q⟩
  if 100 < c'.length then c'.tail else c'

/-- The first phrasing from the specification's normalization property. -/
def queryA : String := "  Tạo Ảnh   con mèo!"

/-- The second phrasing from the specification's normalization
property. -/
def queryB : String := "tạo ảnh con mèo"

/-! ## Theorems -/

/-- C1: `deductCredits` is a non-atomic read-check-write: under the
interleaving in which both calls read the balance before either writes,
both debits of 700 against a balance of 1000 succeed (not exactly one),
two `-700` transactions are appended, and the final stored balance is 300
because the second write overwrites the first with the stale value
`1000 - 700`.  This evaluates the code at the failing input of the claim
"two simultaneous debits of 700 each result in exactly one success and
one InsufficientFunds". -/
theorem claim_C1_debit_not_atomic :
    successCount (runSched twoDebits racySched) = 2 ∧
    ¬ successCount (runSched twoDebits racySched) = 1 ∧
    (runSched twoDebits racySched).balance = 300 ∧
    (runSched twoDebits racySched).log =
      [⟨"chat", -700, 300⟩, ⟨"chat", -700, 300⟩] := by
  decide

/-- C2 counterexample: `setCredits` writes the requested amount
unconditionally, so an administrative set to `-5` (the admin route passes
`req.body.credits` through unvalidated) stores a negative balance,
falsifying "the stored balance is never written negative". -/
theorem claim_C2_counterexample :
    ¬ (0 ≤ (runLedger ⟨0, []⟩ [LedgerOp.setBalance (-5)]).balance) := by
  decide

theorem applyOp_nonneg (s : LedgerState) (op : LedgerOp)
    (h0 : 0 ≤ s.balance) (hop : opNonneg op) : 0 ≤ (applyOp s op).balance := by
  cases op with
  | debit t c =>
    simp only [applyOp, deductCredits]
    split
    · exact h0
    · rename_i h
      simpa using le_of_not_lt h
  | credit a =>
    simp only [applyOp, addCredits]
    exact add_nonneg h0 hop
  | setBalance a =>
    simpa only [applyOp, setCredits] using hop

/-- C2 (amended): starting from a non-negative balance, a debit never
writes a negative balance (the sufficiency check rejects it instead), and
provided every credit and every administrative set requests a
non-negative amount, the stored balance stays non-negative after every
operation of the sequence.  (Unamended, the claim is false:
`addCredits`/`setCredits` write negative balances when handed negative
amounts — see the counterexample.) -/
theorem claim_C2_balance_nonneg (s : LedgerState) (ops : List LedgerOp)
    (s' : LedgerState) (h0 : 0 ≤ s.balance) (hops : ∀ op ∈ ops, opNonneg op)
    (hmem : s' ∈ runStates s ops) : 0 ≤ s'.balance := by
  induction ops generalizing s with
  | nil => simp [runStates] at hmem
  | cons op rest ih =>
    simp only [runStates, List.mem_cons] at hmem
    have hop : opNonneg op := hops op (by simp)
    have hstep : 0 ≤ (applyOp s op).balance := applyOp_nonneg s op h0 hop
    rcases hmem with h | h
    · rw [h]; exact hstep
    · exact ih (applyOp s op) hstep (fun o ho => hops o (by simp [ho])) h

/-- Witness for C2 at a concrete run: balance 1000, a chat debit, a
credit of 50, then a set to 20. -/
theorem claim_C2_balance_nonneg_witness :
    0 ≤ (LedgerState.mk 20
      [⟨"chat", -100, 900⟩, ⟨"admin_adjustment", 50, 950⟩,
       ⟨"admin_adjustment", -930, 20⟩]).balance :=
  claim_C2_balance_nonneg ⟨1000, []⟩
    [LedgerOp.debit .chat none, LedgerOp.credit 50, LedgerOp.setBalance 20]
    _ (by decide) (by decide) (by decide)

theorem applyOp_replay (init : Int) (s : LedgerState) (op : LedgerOp)
    (h : s.balance = init + logSum s.log) :
    (applyOp s op).balance = init + logSum (applyOp s op).log := by
  cases op with
  | debit t c =>
    simp only [applyOp, deductCredits]
    split
    · exact h
    · simp only [logSum, List.map_append, List.sum_append] at h ⊢
      simp only [List.map_cons, List.map_nil, List.sum_cons, List.sum_nil]
      omega
  | credit a =>
    simp only [applyOp, addCredits, logSum, List.map_append, List.sum_append] at h ⊢
    simp only [List.map_cons, List.map_nil, List.sum_cons, List.sum_nil]
    omega
  | setBalance a =>
    simp only [applyOp, setCredits, logSum, List.map_append, List.sum_append] at h ⊢
    simp only [List.map_cons, List.map_nil, List.sum_cons, List.sum_nil]
    omega

theorem runLedger_replay (init : Int) (s : LedgerState) (ops : List LedgerOp)
    (h : s.balance = init + logSum s.log) :
    (runLedger s ops).balance = init + logSum (runLedger s ops).log := by
  induction ops generalizing s with
  | nil => simpa [runLedger] using h
  | cons op rest ih => exact ih (applyOp s op) (applyOp_replay init s op h)

/-- C3: starting from the initial balance with an empty transaction log,
after any finite sequence of debit / credit / setBalance operations
(failed debits append nothing and change nothing) the current balance
equals the initial balance plus the sum of all appended transaction
amounts in creation order; and `setCredits` logs a transaction whose
amount is exactly the signed delta `newAmount - priorBalance`. -/
theorem claim_C3_replay (init : Int) (ops : List LedgerOp) (s : LedgerState)
    (a : Int) :
    (runLedger ⟨init, []⟩ ops).balance =
      init + logSum (runLedger ⟨init, []⟩ ops).log ∧
    (setCredits s a).log =
      s.log ++ [⟨"admin_adjustment", a - s.balance, a⟩] := by
  constructor
  · exact runLedger_replay init ⟨init, []⟩ ops (by simp [logSum])
  · rfl

/-- C10: when the user row is absent — and likewise when the balance
query itself throws — `getUserCredits` returns 0 rather than failing, so
`canAfford` reports `canAfford = false`, `currentCredits = 0`, and
`required` equal to the feature's configured cost, for every feature
category whose cost is positive. -/
theorem claim_C10_missing_account (t : CreditType) (h : 0 < CREDIT_COSTS t) :
    getUserCredits .notFound = 0 ∧ getUserCredits .dbError = 0 ∧
    canAfford .notFound t = ⟨false, 0, CREDIT_COSTS t⟩ ∧
    canAfford .dbError t = ⟨false, 0, CREDIT_COSTS t⟩ := by
  refine ⟨rfl, rfl, ?_, ?_⟩ <;>
    simp [canAfford, getUserCredits, AffordCheck.mk.injEq, decide_eq_false_iff_not,
      not_le, h]

/-- Witness for C10 at the `chat` feature (cost 100). -/
theorem claim_C10_missing_account_witness :
    getUserCredits .notFound = 0 ∧ getUserCredits .dbError = 0 ∧
    canAfford .notFound .chat = ⟨false, 0, CREDIT_COSTS .chat⟩ ∧
    canAfford .dbError .chat = ⟨false, 0, CREDIT_COSTS .chat⟩ :=
  claim_C10_missing_account .chat (by decide)

/-! ### C5: reactivation and the consecutive-failure counter -/

/-- C5 counterexample: the claim says reactivation from `failed` — and
only from `failed` — resets the consecutive-failure counter.  The code
does the opposite: firing the five-minute timer on a `failed` credential
with three recorded failures reactivates it but leaves the counter at 3,
while firing the one-hour timer on a `quota_exceeded` credential zeroes
the counter. -/
theorem claim_C5_counterexample :
    ¬ ((fireTimer [cfgF] tmF).map (fun a => a.failureCount) = [0]) ∧
    (fireTimer [cfgF] tmF).map (fun a => (a.status, a.failureCount)) =
      [(APIStatus.active, 3)] ∧
    (fireTimer [cfgQ] tmQ).map (fun a => (a.status, a.failureCount)) =
      [(APIStatus.active, 0)] := by
  decide

/-- C5 (amended): a fired reactivation timer sets the matching
credential's status back to `active`; reactivation from `quota_exceeded`
— not from `failed` — also resets the consecutive-failure counter to
zero, reactivation from `failed` leaves the counter unchanged, and a
credential whose status no longer matches the scheduling branch (for
example one manually set to `disabled`) is untouched. -/
theorem claim_C5_reactivation (apis : List GeminiAPIConfig) (tm : ResetTimer)
    (i : Nat) (a : GeminiAPIConfig) (h : apis.get? i = some a)
    (hid : a.id = tm.apiId) :
    (a.status = tm.expect → tm.expect = APIStatus.quota_exceeded →
      (fireTimer apis tm).get? i =
        some { a with status := .active, failureCount := 0 }) ∧
    (a.status = tm.expect → tm.expect = APIStatus.failed →
      (fireTimer apis tm).get? i = some { a with status := .active }) ∧
    (a.status ≠ tm.expect → (fireTimer apis tm).get? i = some a) := by
  have h' : apis[i]? = some a := by
    simpa [List.get?_eq_getElem?] using h
  refine ⟨?_, ?_, ?_⟩
  · intro h1 h2
    rw [fireTimer, List.get?_eq_getElem?, List.getElem?_map, h']
    rw [h2] at h1
    simp [hid, h1, h2]
  · intro h1 h2
    rw [fireTimer, List.get?_eq_getElem?, List.getElem?_map, h']
    rw [h2] at h1
    simp [hid, h1, h2]
  · intro h1
    rw [fireTimer, List.get?_eq_getElem?, List.getElem?_map, h']
    simp [hid, h1]

/-- Witness for C5: firing the five-minute timer on `cfgF` reactivates it
with its counter untouched. -/
theorem claim_C5_reactivation_witness :
    (fireTimer [cfgF] tmF).get? 0 = some { cfgF with status := .active } :=
  (claim_C5_reactivation [cfgF] tmF 0 cfgF (by decide) (by decide)).2.1
    (by decide) (by decide)

/-! ### C6: registration is idempotent on the secret -/

theorem mem_apisSet {x config : GeminiAPIConfig} :
    ∀ {apis : List GeminiAPIConfig}, x ∈ apisSet apis config →
      x = config ∨ x ∈ apis := by
  intro apis
  induction apis with
  | nil => intro h; simp [apisSet] at h; exact Or.inl h
  | cons a rest ih =>
    intro h
    simp only [apisSet] at h
    split at h
    · rcases List.mem_cons.mp h with h | h
      · exact Or.inl h
      · exact Or.inr (List.mem_cons.mpr (Or.inr h))
    · rcases List.mem_cons.mp h with h | h
      · exact Or.inr (List.mem_cons.mpr (Or.inl h))
      · rcases ih h with h | h
        · exact Or.inl h
        · exact Or.inr (List.mem_cons.mpr (Or.inr h))

theorem keyExists_false {apis : List GeminiAPIConfig} {k : String}
    (h : keyExists apis k = false) : ∀ a ∈ apis, a.key ≠ k := by
  induction apis with
  | nil => intro a ha; simp at ha
  | cons b rest ih =>
    intro a ha
    simp only [keyExists] at h
    split at h
    · exact absurd h (by simp)
    · rcases List.mem_cons.mp ha with rfl | ha
      · rename_i hb; exact hb
      · exact ih h a ha

theorem apisSet_keysDistinct {apis : List GeminiAPIConfig}
    {config : GeminiAPIConfig} (hinv : keysDistinct apis)
    (hnew : ∀ a ∈ apis, a.key ≠ config.key) :
    keysDistinct (apisSet apis config) := by
  induction apis with
  | nil => simp [apisSet, keysDistinct]
  | cons a rest ih =>
    simp only [keysDistinct, List.map_cons, List.nodup_cons] at hinv
    simp only [apisSet]
    split
    · simp only [keysDistinct, List.map_cons, List.nodup_cons]
      refine ⟨?_, hinv.2⟩
      intro hmem
      rcases List.mem_map.mp hmem with ⟨b, hb, hkb⟩
      exact hnew b (List.mem_cons.mpr (Or.inr hb)) hkb
    · simp only [keysDistinct, List.map_cons, List.nodup_cons]
      refine ⟨?_, ih hinv.2 (fun b hb => hnew b (List.mem_cons.mpr (Or.inr hb)))⟩
      intro hmem
      rcases List.mem_map.mp hmem with ⟨b, hb, hkb⟩
      rcases mem_apisSet hb with rfl | hb
      · exact hnew a (List.mem_cons.mpr (Or.inl rfl)) hkb.symm
      · rw [← hkb] at hinv
        exact hinv.1 (List.mem_map.mpr ⟨b, hb, rfl⟩)

theorem addAPI_keysDistinct {apis : List GeminiAPIConfig}
    {config : GeminiAPIConfig} (hinv : keysDistinct apis) :
    keysDistinct (addAPI apis config) := by
  unfold addAPI
  split
  · exact hinv
  · rename_i h
    exact apisSet_keysDistinct hinv
      (keyExists_false (Bool.not_eq_true _ ▸ eq_false_of_ne_true h))

theorem addAPIAtRuntime_keysDistinct {apis : List GeminiAPIConfig}
    (kn k : String) (cn : Option String) (t : Nat) (hinv : keysDistinct apis) :
    keysDistinct (addAPIAtRuntime apis kn k cn t).2 := by
  unfold addAPIAtRuntime
  split
  · exact addAPI_keysDistinct hinv
  · exact hinv

theorem runRegs_keysDistinct (calls : List RegCall) :
    ∀ {apis : List GeminiAPIConfig}, keysDistinct apis →
      keysDistinct (runRegs apis calls) := by
  induction calls with
  | nil => intro apis hinv; exact hinv
  | cons c rest ih =>
    intro apis hinv
    exact ih (addAPIAtRuntime_keysDistinct c.keyName c.apiKey c.customName c.time hinv)

/-- C6 counterexample: registering the same secret twice through the
runtime route stores nothing the second time, but the call still reports
`true`, falsifying "returns added=false".  (`addAPI`, the other
registration entry point, returns nothing at all.) -/
theorem claim_C6_counterexample :
    ¬ ((addAPIAtRuntime regOnce "k2" dupKey none 5).1 = false) ∧
    (addAPIAtRuntime regOnce "k2" dupKey none 5).2 = regOnce := by
  decide

/-- C6 (amended): a registration whose secret is already stored is a
no-op on the registry — so the registry keeps exactly one entry per
distinct secret across any sequence of register calls — but the runtime
call reports `true` for any well-formed key, duplicate or not, rather
than `added=false`. -/
theorem claim_C6_register_idempotent (apis : List GeminiAPIConfig)
    (calls : List RegCall) (kn k : String) (cn : Option String) (t : Nat)
    (hinv : keysDistinct apis) (hdup : keyExists apis k = true) :
    addAPIAtRuntime apis kn k cn t = (strStartsWith k "AIza", apis) ∧
    keysDistinct (runRegs apis calls) := by
  constructor
  · unfold addAPIAtRuntime
    split
    · rename_i hs
      simp only [hs, addAPI, hdup, if_pos]
    · rename_i hs
      simp only [Bool.not_eq_true] at hs
      simp [hs]
  · exact runRegs_keysDistinct calls hinv

/-- Witness for C6: one stored secret, a duplicate runtime registration,
and one further distinct registration. -/
theorem claim_C6_register_idempotent_witness :
    addAPIAtRuntime regOnce "k2" dupKey none 5 =
      (strStartsWith dupKey "AIza", regOnce) ∧
    keysDistinct (runRegs regOnce [⟨"k3", "AIzaOther", none, 7⟩]) :=
  claim_C6_register_idempotent regOnce [⟨"k3", "AIzaOther", none, 7⟩]
    "k2" dupKey none 5 (by decide) (by decide)

/-! ### C8: acquisition order -/

theorem insertByPriority_head_cons (a b : GeminiAPIConfig)
    (l : List GeminiAPIConfig) :
    (insertByPriority a (b :: l)).head? =
      some (if b.priority < a.priority then b else a) := by
  simp only [insertByPriority]
  split <;> simp

theorem sortByPriority_head (l : List GeminiAPIConfig) :
    (sortByPriority l).head? = firstMinP l := by
  induction l with
  | nil => rfl
  | cons a l ih =>
    simp only [sortByPriority, firstMinP]
    cases hl : sortByPriority l with
    | nil =>
      rw [hl] at ih
      rw [← ih]
      simp [insertByPriority]
    | cons b s =>
      rw [hl] at ih
      rw [← ih, insertByPriority_head_cons]
      rfl

theorem firstMinP_spec : ∀ {l : List GeminiAPIConfig} {c : GeminiAPIConfig},
    firstMinP l = some c →
      ∃ l₁ l₂, l = l₁ ++ c :: l₂ ∧ (∀ b ∈ l₁, c.priority < b.priority) ∧
        (∀ b ∈ l₂, c.priority ≤ b.priority) := by
  intro l
  induction l with
  | nil => intro c h; simp [firstMinP] at h
  | cons a t ih =>
    intro c h
    simp only [firstMinP] at h
    cases ht : firstMinP t with
    | none =>
      rw [ht] at h
      obtain rfl : a = c := Option.some.inj h
      have ht' : t = [] := by
        cases t with
        | nil => rfl
        | cons x xs =>
          exact absurd ht (by simp only [firstMinP]; cases firstMinP xs <;> simp)
      exact ⟨[], [], by simp [ht'], by simp, by simp⟩
    | some m =>
      rw [ht] at h
      have h' : (if m.priority < a.priority then m else a) = c := Option.some.inj h
      by_cases hcmp : m.priority < a.priority
      · rw [if_pos hcmp] at h'
        subst h'
        obtain ⟨t₁, t₂, hteq, h₁, h₂⟩ := ih ht
        refine ⟨a :: t₁, t₂, by simp [hteq], ?_, h₂⟩
        intro b hb
        rcases List.mem_cons.mp hb with rfl | hb
        · exact hcmp
        · exact h₁ b hb
      · rw [if_neg hcmp] at h'
        subst h'
        push_neg at hcmp
        obtain ⟨t₁, t₂, hteq, h₁, h₂⟩ := ih ht
        refine ⟨[], t, by simp, by simp, ?_⟩
        intro b hb
        rw [hteq] at hb
        rcases List.mem_append.mp hb with hb | hb
        · exact le_trans hcmp (le_of_lt (h₁ b hb))
        · rcases List.mem_cons.mp hb with rfl | hb
          · exact hcmp
          · exact le_trans hcmp (h₂ b hb)

theorem firstMinP_of_ne_nil {l : List GeminiAPIConfig} (h : l ≠ []) :
    ∃ m, firstMinP l = some m := by
  cases l with
  | nil => exact absurd rfl h
  | cons a t =>
    simp only [firstMinP]
    cases firstMinP t with
    | none => exact ⟨a, rfl⟩
    | some m => exact ⟨if m.priority < a.priority then m else a, rfl⟩

/-- C8: `getBestAPI` returns `none` (never throwing: it is a total
function) exactly when the filtered snapshot — the registry entries with
status `active` that are not rate-limited, in registration order — is
empty, which covers the empty and the all-disabled registry; and whenever
that snapshot is nonempty it returns a credential, namely the one that
splits the filtered snapshot so that every earlier eligible entry has
strictly larger priority and every later one has larger-or-equal
priority: exactly the head of the stable ascending sort by priority with
ties broken by registration order. -/
theorem claim_C8_acquire (s : PoolState) (f : CreditType) (now : Nat) :
    ((filterEligible s now).1 = [] → (getBestAPI s f now).1 = none) ∧
    ((filterEligible s now).1 ≠ [] →
      ∃ c l₁ l₂, (getBestAPI s f now).1 = some c ∧
        (filterEligible s now).1 = l₁ ++ c :: l₂ ∧
        (∀ b ∈ l₁, c.priority < b.priority) ∧
        (∀ b ∈ l₂, c.priority ≤ b.priority)) := by
  constructor
  · intro h
    simp [getBestAPI, h, sortByPriority]
  · intro h
    obtain ⟨c, hc⟩ := firstMinP_of_ne_nil h
    have hh : (sortByPriority (filterEligible s now).1).head? = some c :=
      (sortByPriority_head _).trans hc
    obtain ⟨l₁, l₂, hsplit, h₁, h₂⟩ := firstMinP_spec hc
    exact ⟨c, l₁, l₂, by simp only [getBestAPI, hh], hsplit, h₁, h₂⟩

/-- Witness for C8: an all-disabled registry yields `none`, and a
registry whose sole credential is active and untracked yields a
credential of minimal priority. -/
theorem claim_C8_acquire_witness :
    (getBestAPI ⟨[cfgD], []⟩ CreditType.chat 0).1 = none ∧
    ∃ c l₁ l₂, (getBestAPI ⟨[cfgA], []⟩ CreditType.chat 0).1 = some c ∧
      (filterEligible ⟨[cfgA], []⟩ 0).1 = l₁ ++ c :: l₂ ∧
      (∀ b ∈ l₁, c.priority < b.priority) ∧
      (∀ b ∈ l₂, c.priority ≤ b.priority) :=
  ⟨(claim_C8_acquire ⟨[cfgD], []⟩ CreditType.chat 0).1 (by decide),
   (claim_C8_acquire ⟨[cfgA], []⟩ CreditType.chat 0).2 (by decide)⟩

/-! ### C4: quarantine after a reported failure -/

theorem mem_insertByPriority {x a : GeminiAPIConfig} :
    ∀ {l : List GeminiAPIConfig}, x ∈ insertByPriority a l → x = a ∨ x ∈ l := by
  intro l
  induction l with
  | nil => intro h; simp [insertByPriority] at h; exact Or.inl h
  | cons b t ih =>
    intro h
    simp only [insertByPriority] at h
    split at h
    · rcases List.mem_cons.mp h with rfl | h
      · exact Or.inr (by simp)
      · rcases ih h with h | h
        · exact Or.inl h
        · exact Or.inr (by simp [h])
    · rcases List.mem_cons.mp h with rfl | h
      · exact Or.inl rfl
      · exact Or.inr h

theorem mem_sortByPriority {x : GeminiAPIConfig} :
    ∀ {l : List GeminiAPIConfig}, x ∈ sortByPriority l → x ∈ l := by
  intro l
  induction l with
  | nil => intro h; simp [sortByPriority] at h
  | cons a t ih =>
    intro h
    rcases mem_insertByPriority h with rfl | h
    · simp
    · simp [ih h]

theorem mem_filterEligibleAux (apis : List GeminiAPIConfig) (now : Nat) :
    ∀ (l : List GeminiAPIConfig) (trs : Trackers) {c : GeminiAPIConfig},
      c ∈ (filterEligibleAux apis now l trs).1 →
        c ∈ l ∧ c.status = APIStatus.active := by
  intro l
  induction l with
  | nil => intro trs c h; simp [filterEligibleAux] at h
  | cons a rest ih =>
    intro trs c h
    simp only [filterEligibleAux] at h
    split at h
    · split at h
      · obtain ⟨hc, hs⟩ := ih _ h
        exact ⟨by simp [hc], hs⟩
      · dsimp only at h
        rcases List.mem_cons.mp h with rfl | h
        · rename_i hst _
          exact ⟨by simp, hst⟩
        · obtain ⟨hc, hs⟩ := ih _ h
          exact ⟨by simp [hc], hs⟩
    · obtain ⟨hc, hs⟩ := ih _ h
      exact ⟨by simp [hc], hs⟩

theorem filterEligible_mem (s : PoolState) (now : Nat) {c : GeminiAPIConfig}
    (h : c ∈ (filterEligible s now).1) :
    c ∈ s.apis ∧ c.status = APIStatus.active :=
  mem_filterEligibleAux s.apis now s.apis s.trackers h

theorem trackUsage_status (s : PoolState) (apiId : String) (f : CreditType)
    (now : Nat) :
    ∀ a' ∈ (trackUsage s apiId f now).apis,
      ∃ a ∈ s.apis, a'.id = a.id ∧ a'.status = a.status := by
  intro a' ha'
  unfold trackUsage at ha'
  cases h : apisFind s.apis apiId with
  | none =>
    rw [h] at ha'
    exact ⟨a', ha', rfl, rfl⟩
  | some api =>
    rw [h] at ha'
    dsimp only at ha'
    obtain ⟨a, ha, ha'eq⟩ := List.mem_map.mp ha'
    refine ⟨a, ha, ?_, ?_⟩ <;> rw [← ha'eq] <;>
      by_cases hid : a.id = apiId <;> simp [hid, bumpUsage]

theorem getBestAPI_status_inv (s : PoolState) (f : CreditType) (now : Nat)
    {apiId : String} (h : NotActive s.apis apiId) :
    NotActive (getBestAPI s f now).2.apis apiId := by
  cases hh : (sortByPriority (filterEligible s now).1).head? with
  | none =>
    simp only [getBestAPI, hh]
    exact h
  | some api =>
    simp only [getBestAPI, hh]
    intro a' ha' hid
    obtain ⟨a, ha, hid', hst⟩ :=
      trackUsage_status ⟨s.apis, (filterEligible s now).2⟩ api.id f now a' ha'
    rw [hst]
    exact h a ha (hid' ▸ hid)

theorem getBestAPI_some_active (s : PoolState) (f : CreditType) (now : Nat)
    {c : GeminiAPIConfig} (h : (getBestAPI s f now).1 = some c) :
    c ∈ s.apis ∧ c.status = APIStatus.active := by
  cases hh : (sortByPriority (filterEligible s now).1).head? with
  | none => simp [getBestAPI, hh] at h
  | some d =>
    simp only [getBestAPI, hh] at h
    have hdc : d = c := Option.some.inj h
    subst hdc
    refine filterEligible_mem s now (mem_sortByPriority ?_)
    cases hs : sortByPriority (filterEligible s now).1 with
    | nil => rw [hs] at hh; simp at hh
    | cons x xs =>
      rw [hs] at hh
      simp only [List.head?] at hh
      obtain rfl := Option.some.inj hh
      simp

theorem acquireRun_notActive {apiId : String} :
    ∀ (evs : List (CreditType × Nat)) (s : PoolState),
      NotActive s.apis apiId →
        ∀ r ∈ (acquireRun s evs).1, ∀ c, r = some c → c.id ≠ apiId := by
  intro evs
  induction evs with
  | nil => intro s h r hr; simp [acquireRun] at hr
  | cons ev rest ih =>
    obtain ⟨f, t⟩ := ev
    intro s h r hr c hrc
    simp only [acquireRun] at hr
    rcases List.mem_cons.mp hr with rfl | hr
    · obtain ⟨hc, hst⟩ := getBestAPI_some_active s f t hrc
      intro hid
      exact h c hc hid hst
    · exact ih (getBestAPI s f t).2 (getBestAPI_status_inv s f t h) r hr c hrc

theorem handleAPIFailure_notActive (apis : List GeminiAPIConfig)
    (apiId msg : String) (t0 : Nat) (api : GeminiAPIConfig)
    (hfind : apisFind apis apiId = some api) :
    NotActive (handleAPIFailure apis apiId msg t0).1 apiId := by
  intro a' ha' hid
  unfold handleAPIFailure at ha'
  rw [hfind] at ha'
  dsimp only at ha'
  split at ha' <;>
  · dsimp only at ha'
    obtain ⟨a, ha, ha'eq⟩ := List.mem_map.mp ha'
    by_cases h : a.id = apiId
    · rw [← ha'eq]; simp [h]
    · rw [← ha'eq] at hid; simp [h] at hid

/-- C4: reporting a failure on a stored credential schedules its
reactivation exactly one hour out when the error text is
quota-indicating (contains "quota", "overloaded", "rate limit", or
"503") after setting `quota_exceeded`, and exactly five minutes out
otherwise after setting `failed`; and for any sequence of acquire calls
performed before that timer fires — `getBestAPI` steps never change any
credential's status, so the quarantine persists until `fireTimer` runs at
the scheduled instant — no acquire ever returns that credential. -/
theorem claim_C4_quarantine (apis : List GeminiAPIConfig) (trackers : Trackers)
    (apiId msg : String) (t0 : Nat) (api : GeminiAPIConfig)
    (hfind : apisFind apis apiId = some api) :
    (isQuotaError msg = true →
      (handleAPIFailure apis apiId msg t0).2 =
        some ⟨apiId, t0 + 60 * 60 * 1000, .quota_exceeded⟩) ∧
    (isQuotaError msg = false →
      (handleAPIFailure apis apiId msg t0).2 =
        some ⟨apiId, t0 + 5 * 60 * 1000, .failed⟩) ∧
    (∀ evs r c,
      r ∈ (acquireRun ⟨(handleAPIFailure apis apiId msg t0).1, trackers⟩ evs).1 →
        r = some c → c.id ≠ apiId) := by
  refine ⟨?_, ?_, ?_⟩
  · intro hq
    unfold handleAPIFailure
    rw [hfind]
    simp [hq]
  · intro hq
    unfold handleAPIFailure
    rw [hfind]
    simp [hq]
  · intro evs r c hr hrc
    exact acquireRun_notActive evs ⟨(handleAPIFailure apis apiId msg t0).1, trackers⟩
      (handleAPIFailure_notActive apis apiId msg t0 api hfind) r hr c hrc

/-- Witness for C4: a quota error on the only credential schedules the
one-hour timer, and an acquire issued before it fires returns nothing. -/
theorem claim_C4_quarantine_witness :
    (handleAPIFailure [cfgA] "primary" "quota exceeded" 0).2 =
      some ⟨"primary", 60 * 60 * 1000, .quota_exceeded⟩ ∧
    (acquireRun ⟨(handleAPIFailure [cfgA] "primary" "quota exceeded" 0).1, []⟩
      [(CreditType.chat, 5)]).1 = [none] :=
  ⟨(claim_C4_quarantine [cfgA] [] "primary" "quota exceeded" 0 cfgA
      (by decide)).1 (by decide),
   by decide⟩

/-! ### C7: the rolling-window rate limiter -/

theorem trackerFind_trackerSet (trs : Trackers) (i : String) (v : Tracker) :
    trackerFind (trackerSet trs i v) i = some v := by
  induction trs with
  | nil => simp [trackerSet, trackerFind]
  | cons p rest ih =>
    obtain ⟨j, w⟩ := p
    simp only [trackerSet]
    by_cases h : j = i
    · simp [h, trackerFind]
    · simp only [h, if_false, trackerFind]
      exact ih

theorem apisFind_map (g : GeminiAPIConfig → GeminiAPIConfig)
    (hg : ∀ a, (g a).id = a.id) :
    ∀ (l : List GeminiAPIConfig) (i : String),
      apisFind (l.map g) i = (apisFind l i).map g := by
  intro l
  induction l with
  | nil => intro i; simp [apisFind]
  | cons a rest ih =>
    intro i
    simp only [List.map_cons, apisFind, hg a]
    by_cases h : a.id = i
    · simp [h]
    · simp [h, ih i]

theorem option_isSome_of_map_eq {o₁ o₂ : Option GeminiAPIConfig}
    (h : o₁.map (fun a => a.maxRequestsPerMinute) =
      o₂.map (fun a => a.maxRequestsPerMinute))
    (h2 : o₂.isSome = true) : o₁.isSome = true := by
  cases o₁ <;> cases o₂ <;> simp_all

theorem trackUsage_find (s : PoolState) (apiId j : String) (f : CreditType)
    (now : Nat) :
    (apisFind (trackUsage s apiId f now).apis j).map
        (fun a => a.maxRequestsPerMinute) =
      (apisFind s.apis j).map (fun a => a.maxRequestsPerMinute) := by
  have hg : ∀ a : GeminiAPIConfig,
      ((fun a => if a.id = apiId then bumpUsage f now a else a) a).id = a.id := by
    intro a
    by_cases h : a.id = apiId <;> simp [h, bumpUsage]
  unfold trackUsage
  cases h : apisFind s.apis apiId with
  | none => rfl
  | some api =>
    dsimp only
    rw [apisFind_map _ hg]
    cases hj : apisFind s.apis j with
    | none => rfl
    | some b =>
      simp only [Option.map_some']
      by_cases hid : b.id = apiId <;> simp [hid, bumpUsage]

theorem trackUsage_tracker_start (s : PoolState) (apiId : String)
    (f : CreditType) (now : Nat)
    (hapi : (apisFind s.apis apiId).isSome = true)
    (htr : trackerFind s.trackers apiId = none) :
    trackerFind (trackUsage s apiId f now).trackers apiId =
      some ⟨1, now + 60 * 1000⟩ := by
  unfold trackUsage
  cases h : apisFind s.apis apiId with
  | none => rw [h] at hapi; simp at hapi
  | some api =>
    dsimp only
    rw [htr]
    simp [trackerFind_trackerSet]

theorem trackUsage_tracker_step (s : PoolState) (apiId : String)
    (f : CreditType) (now k R : Nat)
    (hapi : (apisFind s.apis apiId).isSome = true)
    (htr : trackerFind s.trackers apiId = some ⟨k, R⟩) (hnow : ¬ R < now) :
    trackerFind (trackUsage s apiId f now).trackers apiId = some ⟨k + 1, R⟩ := by
  unfold trackUsage
  cases h : apisFind s.apis apiId with
  | none => rw [h] at hapi; simp at hapi
  | some api =>
    dsimp only
    rw [htr]
    simp [hnow, trackerFind_trackerSet]

theorem trackUses_tracker (ts : List Nat) :
    ∀ (s : PoolState) (apiId : String) (f : CreditType) (k R : Nat),
      (apisFind s.apis apiId).isSome = true →
      trackerFind s.trackers apiId = some ⟨k, R⟩ →
      (∀ t ∈ ts, ¬ R < t) →
      trackerFind (trackUses s apiId f ts).trackers apiId =
          some ⟨k + ts.length, R⟩ ∧
        (apisFind (trackUses s apiId f ts).apis apiId).map
            (fun a => a.maxRequestsPerMinute) =
          (apisFind s.apis apiId).map (fun a => a.maxRequestsPerMinute) := by
  induction ts with
  | nil =>
    intro s apiId f k R hapi htr hts
    exact ⟨by simpa using htr, rfl⟩
  | cons t ts ih =>
    intro s apiId f k R hapi htr hts
    have h1 := trackUsage_tracker_step s apiId f t k R hapi htr (hts t (by simp))
    have h2 := trackUsage_find s apiId apiId f t
    have hapi' : (apisFind (trackUsage s apiId f t).apis apiId).isSome = true :=
      option_isSome_of_map_eq h2 hapi
    obtain ⟨ha, hb⟩ := ih (trackUsage s apiId f t) apiId f (k + 1) R hapi' h1
      (fun x hx => hts x (by simp [hx]))
    refine ⟨?_, ?_⟩
    · show trackerFind (trackUses (trackUsage s apiId f t) apiId f ts).trackers
          apiId = _
      rw [ha]
      simp only [List.length_cons]
      congr 2
      omega
    · show (apisFind (trackUses (trackUsage s apiId f t) apiId f ts).apis
          apiId).map (fun a => a.maxRequestsPerMinute) = _
      exact hb.trans h2

theorem isRateLimited_no_tracker (apis : List GeminiAPIConfig) (trs : Trackers)
    (apiId : String) (now : Nat) (htr : trackerFind trs apiId = none) :
    isRateLimited apis trs apiId now = (false, trs) := by
  unfold isRateLimited
  rw [htr]

theorem isRateLimited_within (apis : List GeminiAPIConfig) (trs : Trackers)
    (apiId : String) (now k R : Nat) (a : GeminiAPIConfig) (N : Nat)
    (htr : trackerFind trs apiId = some ⟨k, R⟩) (hnow : ¬ R < now)
    (ha : apisFind apis apiId = some a)
    (hmax : a.maxRequestsPerMinute = some N) (hN : N ≠ 0) :
    isRateLimited apis trs apiId now = (decide (N ≤ k), trs) := by
  unfold isRateLimited
  rw [htr]
  dsimp only
  rw [if_neg hnow, ha]
  simp [jsOrNat, hmax, hN]

theorem isRateLimited_expired (apis : List GeminiAPIConfig) (trs : Trackers)
    (apiId : String) (now k R : Nat)
    (htr : trackerFind trs apiId = some ⟨k, R⟩) (hlt : R < now) :
    isRateLimited apis trs apiId now =
      (false, trackerSet trs apiId ⟨0, now + 60 * 1000⟩) := by
  unfold isRateLimited
  rw [htr]
  dsimp only
  rw [if_pos hlt]

/-- C7: for a credential whose ceiling is `N` per minute and which starts
with no rate window, `isRateLimited` reports unlimited before any use;
after recording exactly `N` uses whose first call (at `t1`) opens the
window and whose remaining calls fall inside it, `isRateLimited` reports
limited anywhere in the window, while after exactly `N - 1` such uses it
still reports unlimited; and strictly after the window's reset time
`t1 + 60s` it reports unlimited again, resetting the window to count 0
and reset time one minute from the query before checking. -/
theorem claim_C7_rate_limit (s : PoolState) (apiId : String)
    (api : GeminiAPIConfig) (f : CreditType) (N t1 : Nat) (rest : List Nat)
    (hapi : apisFind s.apis apiId = some api)
    (hmax : api.maxRequestsPerMinute = some N) (hN : 0 < N)
    (htr : trackerFind s.trackers apiId = none)
    (hrest : ∀ t ∈ rest, t ≤ t1 + 60 * 1000) :
    (∀ t, (isRateLimited s.apis s.trackers apiId t).1 = false) ∧
    (rest.length + 1 = N → ∀ t, t ≤ t1 + 60 * 1000 →
      (isRateLimited (trackUses s apiId f (t1 :: rest)).apis
        (trackUses s apiId f (t1 :: rest)).trackers apiId t).1 = true) ∧
    (rest.length + 2 = N → ∀ t, t ≤ t1 + 60 * 1000 →
      (isRateLimited (trackUses s apiId f (t1 :: rest)).apis
        (trackUses s apiId f (t1 :: rest)).trackers apiId t).1 = false) ∧
    (∀ t', t1 + 60 * 1000 < t' →
      isRateLimited (trackUses s apiId f (t1 :: rest)).apis
        (trackUses s apiId f (t1 :: rest)).trackers apiId t' =
        (false, trackerSet (trackUses s apiId f (t1 :: rest)).trackers apiId
          ⟨0, t' + 60 * 1000⟩)) := by
  have hapi0 : (apisFind s.apis apiId).isSome = true := by simp [hapi]
  have h1 := trackUsage_tracker_start s apiId f t1 hapi0 htr
  have hmap1 := trackUsage_find s apiId apiId f t1
  have hapi1 : (apisFind (trackUsage s apiId f t1).apis apiId).isSome = true :=
    option_isSome_of_map_eq hmap1 hapi0
  obtain ⟨htrk, hmapfin⟩ := trackUses_tracker rest (trackUsage s apiId f t1)
    apiId f 1 (t1 + 60 * 1000) hapi1 h1
    (fun t ht => by have := hrest t ht; omega)
  have hmaxfin : (apisFind (trackUses s apiId f (t1 :: rest)).apis apiId).map
      (fun a => a.maxRequestsPerMinute) = some (some N) := by
    have : trackUses s apiId f (t1 :: rest) =
        trackUses (trackUsage s apiId f t1) apiId f rest := rfl
    rw [this, hmapfin, hmap1, hapi]
    simp [hmax]
  obtain ⟨a', ha', hm'⟩ : ∃ a',
      apisFind (trackUses s apiId f (t1 :: rest)).apis apiId = some a' ∧
        a'.maxRequestsPerMinute = some N := by
    cases hc : apisFind (trackUses s apiId f (t1 :: rest)).apis apiId with
    | none => rw [hc] at hmaxfin; simp at hmaxfin
    | some b => rw [hc] at hmaxfin; exact ⟨b, rfl, by simpa using hmaxfin⟩
  have htrk' : trackerFind (trackUses s apiId f (t1 :: rest)).trackers apiId =
      some ⟨1 + rest.length, t1 + 60 * 1000⟩ := htrk
  refine ⟨?_, ?_, ?_, ?_⟩
  · intro t
    rw [isRateLimited_no_tracker s.apis s.trackers apiId t htr]
  · intro hlen t ht
    rw [isRateLimited_within _ _ apiId t _ _ a' N htrk' (by omega) ha' hm'
      (by omega)]
    simp only [decide_eq_true_eq]
    omega
  · intro hlen t ht
    rw [isRateLimited_within _ _ apiId t _ _ a' N htrk' (by omega) ha' hm'
      (by omega)]
    simp only [decide_eq_false_iff_not]
    omega
  · intro t' ht'
    exact isRateLimited_expired _ _ apiId t' _ _ htrk' ht'

/-- Witness for C7: a credential with a ceiling of 2, two recorded uses
at times 0 and 10, then a limited check inside the window at time
30000. -/
theorem claim_C7_rate_limit_witness :
    (isRateLimited (trackUses ⟨[cfgR], []⟩ "primary" CreditType.chat [0, 10]).apis
      (trackUses ⟨[cfgR], []⟩ "primary" CreditType.chat [0, 10]).trackers
      "primary" 30000).1 = true :=
  (claim_C7_rate_limit ⟨[cfgR], []⟩ "primary" cfgR CreditType.chat 2 0 [10]
    (by decide) (by decide) (by decide) (by decide) (by decide)).2.1
    (by decide) 30000 (by decide)

/-! ### C9: cache key normalization -/

set_option maxRecDepth 8000 in
/-- C9: the two phrasings `"  Tạo Ảnh   con mèo!"` and
`"tạo ảnh con mèo"` derive the same cache key (both normalize to
`"to nh con mo"`: lowercasing, whitespace collapsing, and stripping of
every non-`[A-Za-z0-9_\s]` character — the source's `\w` has no `u` flag,
so the accented letters are stripped along with the punctuation — then
the same 32-bit hash), so for any feature category a single `put` under
either phrasing is returned by a `get` under the other at any time before
the 30-minute expiry. -/
theorem claim_C9_cache_normalization (ctype payload : String) (t0 t1 : Nat)
    (h : t1 < t0 + CACHE_DURATION) :
    generateQueryHash queryA = generateQueryHash queryB ∧
    (getCachedResponse (setCachedResponse [] queryA payload ctype t0) queryB
      ctype t1).1 = some payload ∧
    (getCachedResponse (setCachedResponse [] queryB payload ctype t0) queryA
      ctype t1).1 = some payload := by
  have hk : generateQueryHash queryA = generateQueryHash queryB := by decide
  refine ⟨hk, ?_, ?_⟩
  · rw [show setCachedResponse [] queryA payload ctype t0 =
      [(ctype ++ "_" ++ generateQueryHash queryA,
        ⟨payload, t0, t0 + CACHE_DURATION, generateQueryHash queryA⟩)] from rfl]
    unfold getCachedResponse
    rw [← hk]
    simp [cacheFind, h]
  · rw [show setCachedResponse [] queryB payload ctype t0 =
      [(ctype ++ "_" ++ generateQueryHash queryB,
        ⟨payload, t0, t0 + CACHE_DURATION, generateQueryHash queryB⟩)] from rfl]
    unfold getCachedResponse
    rw [hk]
    simp [cacheFind, h]

/-- Witness for C9 at concrete times 0 and 1 with the `chat` category. -/
theorem claim_C9_cache_normalization_witness :
    generateQueryHash queryA = generateQueryHash queryB ∧
    (getCachedResponse (setCachedResponse [] queryA "a cat picture" "chat" 0)
      queryB "chat" 1).1 = some "a cat picture" ∧
    (getCachedResponse (setCachedResponse [] queryB "a cat picture" "chat" 0)
      queryA "chat" 1).1 = some "a cat picture" :=
  claim_C9_cache_normalization "chat" "a cat picture" 0 1 (by decide)

end AnsBSA
